import Mathlib

/-!
Verification development for the `MongoWrapper` document-store wrapper
(`MongoWrapper.py`).  The wrapper persists Python dictionaries in a mongodb
collection, externalizing numpy arrays into gridfs blobs: `save` walks the
document, replaces each numpy array by a gridfs ObjectId (reusing an old
blob when its md5 content hash matches), records the blob ids in the
`_npObjectIDs` key, deletes no-longer-referenced old blobs, and upserts the
document; `load` queries and optionally re-expands blob references;
`delete` removes a document and its blobs.

The embedding below is a shallow, executable model of that code:
dictionaries become ordered association lists, numpy arrays become a
shape/dtype/data record, the pickle encoding becomes a concrete invertible
serialization into `List Nat`, ObjectIds become `Nat`, and the pymongo /
gridfs collaborators become pure functional stores threaded through each
operation.  Exceptions are modelled with `Except`.  `save` additionally
records the ordered trace of store effects (blob put, blob delete, document
upsert) so that ordering properties can be stated.
-/

namespace MongoWrapper

/-- Model of a numpy array: shape, an element-type code (dtype) and the
flat element data.  Element values are integers; the dtype code keeps
distinct element types distinguishable, which is all the wrapper ever
depends on. -/
structure NpArray where
  shape : List Nat
  dtype : Nat
  data : List Int
deriving Repr, DecidableEq

/-- The value model: everything that can sit in a document.  `npInt` models
a numpy scalar of integral kind (`np.integer`), which `_stashNPArrays`
normalizes to a plain `int`.  `binaryV` models a BSON `Binary` byte string.
`objId` models a BSON `ObjectId`.  Nested dictionaries are `dict`, python
lists are `list`. -/
inductive Value where
  | int (n : Int)
  | str (s : String)
  | bool (b : Bool)
  | timestamp (t : Nat)
  | objId (i : Nat)
  | binaryV (bs : List Nat)
  | npArray (a : NpArray)
  | npInt (n : Int)
  | dict (d : List (String × Value))
  | list (vs : List Value)

/-- A document is an ordered mapping from string keys to values (a Python
dictionary; keys are unique in any document produced by the real code). -/
abbrev Doc := List (String × Value)

/-- Python `document[key]` read: first entry with the key. -/
def lookupKey : Doc → String → Option Value
  | [], _ => none
  | (k', v) :: rest, k => if k' = k then some v else lookupKey rest k

/-- Python `document[key] = v`: overwrite the existing entry in place, or
append a new entry at the end. -/
def setKey : Doc → String → Value → Doc
  | [], k, v => [(k, v)]
  | (k', v') :: rest, k, v =>
    if k' = k then (k, v) :: rest else (k', v') :: setKey rest k v

/-- Path lookup through nested dictionaries (a nonempty list of keys). -/
def lookupPath : Doc → List String → Option Value
  | _, [] => none
  | d, [k] => lookupKey d k
  | d, k :: k' :: p =>
    match lookupKey d k with
    | some (.dict dd) => lookupPath dd (k' :: p)
    | _ => none

/-- Zigzag byte coding of one integer element. -/
def encInt (n : Int) : Nat :=
  if 0 ≤ n then 2 * n.toNat else 2 * (-n - 1).toNat + 1

/-- Inverse of `encInt`. -/
def decInt (m : Nat) : Int :=
  if m % 2 = 0 then ((m / 2 : Nat) : Int) else -((m / 2 : Nat) : Int) - 1

/-- Model of `MongoWrapper._npArray2Binary`: pickles a numpy array into a byte
string (`pickle.dumps(npArray, protocol=2)` wrapped in BSON `Binary`).
Modelled as a concrete self-describing serialization into naturals:
shape length, shape, dtype, data length, then the zigzag-coded data.
Like pickle, it is lossless (see `binary2npArray_npArray2Binary`). -/
def npArray2Binary (a : NpArray) : List Nat :=
  a.shape.length :: a.shape ++ a.dtype :: a.data.length :: a.data.map encInt

/-- Model of `MongoWrapper._binary2npArray`, i.e. `pickle.loads`.  Returns `none` on a
malformed byte string (where `pickle.loads` would raise). -/
def binary2npArray : List Nat → Option NpArray
  | [] => none
  | n :: rest =>
    if n ≤ rest.length then
      match rest.drop n with
      | dt :: len :: dataBytes =>
        if dataBytes.length = len then
          some ⟨rest.take n, dt, dataBytes.map decInt⟩
        else none
      | _ => none
    else none

/-- Content hash of a byte string (`hashlib.md5(...).hexdigest()`, and the
`.md5` attribute of a gridfs file).  md5 is modelled as an injective digest:
the dedup logic needs exactly collision-freedom on the blobs at hand. -/
def md5hex (bs : List Nat) : List Nat := bs

/-- The gridfs blob store: stored files as id/bytes pairs. -/
abbrev BlobStore := List (Nat × List Nat)

/-- Model of `gridfs.get(id).read()` (and the stored bytes behind `.md5`). -/
def fetchBlob (fs : BlobStore) (i : Nat) : Option (List Nat) :=
  (fs.find? (fun p => p.1 = i)).map (fun p => p.2)

/-- Model of `gridfs.delete(id)`: idempotent removal. -/
def fsDelete (fs : BlobStore) (i : Nat) : BlobStore :=
  fs.filter (fun p => p.1 ≠ i)

/-- Errors surfaced by the modelled operations.  `typeError` / `keyError`
model the corresponding unguarded Python exceptions; `noFile` models
`gridfs.errors.NoFile`; `parseError` models an unpickling failure.
`notFoundError` is the explicit error the specification's taxonomy names;
the code never raises it. -/
inductive MErr where
  | noFile
  | typeError
  | keyError
  | parseError
  | notFoundError
deriving Repr, DecidableEq

/-- Store effects recorded by `save`, in program order. -/
inductive Ev where
  | putBlob (i : Nat)
  | delBlob (i : Nat)
  | upsert (i : Nat)
deriving Repr, DecidableEq

/-- The mutable state visible to one `save` iteration:
the gridfs contents, the fresh ObjectId counter, the two accumulators the
code keeps as `self.temp_oldNpObjectIDs` / `self.temp_newNpObjectIds`, and
the recorded effect trace. -/
structure SaveSt where
  fs : BlobStore
  nextId : Nat
  old : List Nat
  newRefs : List Nat
  evs : List Ev
deriving Repr

/-- The dedup scan in `_stashNPArrays` (lines 317-324): a Python
`for obj in temp_old` loop that, on a hash match, assigns the array's slot,
removes `obj` from the list *being iterated* and appends it to the new
reference list — without breaking out of the loop.  Python's list iterator
is index based, so removing the current element skips the next one; this is
modelled exactly: `i` is the iterator index, the fuel argument starts at the
original list length (an upper bound on the number of iterations, since the
list never grows).  Returns the remaining old list, the ids appended to the
new reference list, and the last matched id (the value left in the
document's slot), or `none` if no match occurred. -/
def matchLoop (fs : BlobStore) (dataMD5 : List Nat) :
    Nat → Nat → List Nat → List Nat → Option Nat →
    Except MErr (List Nat × List Nat × Option Nat)
  | 0, _, old, claimed, last => .ok (old, claimed, last)
  | fuel + 1, i, old, claimed, last =>
    if h : i < old.length then
      let obj := old.get ⟨i, h⟩
      match fetchBlob fs obj with
      | none => .error .noFile
      | some bs =>
        if md5hex bs = dataMD5 then
          matchLoop fs dataMD5 fuel (i + 1) (old.erase obj) (claimed ++ [obj]) (some obj)
        else
          matchLoop fs dataMD5 fuel (i + 1) old claimed last
    else .ok (old, claimed, last)

mutual

/-- One value of `MongoWrapper._stashNPArrays`'s traversal (lines 310-338):
numpy arrays are hashed, matched against the remaining old references and
either reuse an old blob or insert a fresh one; nested dicts recurse; numpy
integral scalars normalize to `int`; every other value (lists included) is
left untouched. -/
def stashVal : SaveSt → Value → Except MErr (Value × SaveSt)
  | st, .npArray a =>
    let dataMD5 := md5hex (npArray2Binary a)
    match matchLoop st.fs dataMD5 st.old.length 0 st.old [] none with
    | .error e => .error e
    | .ok (old', claimed, last) =>
      match last with
      | some obj =>
        .ok (.objId obj, { st with old := old', newRefs := st.newRefs ++ claimed })
      | none =>
        .ok (.objId st.nextId,
          { st with
            fs := st.fs ++ [(st.nextId, npArray2Binary a)]
            nextId := st.nextId + 1
            old := old'
            newRefs := st.newRefs ++ [st.nextId]
            evs := st.evs ++ [.putBlob st.nextId] })
  | st, .dict dd =>
    match stashNPArrays st dd with
    | .error e => .error e
    | .ok (dd', st1) => .ok (.dict dd', st1)
  | st, .npInt n => .ok (.int n, st)
  | st, v => .ok (v, st)

/-- Model of `MongoWrapper._stashNPArrays` over a whole dictionary: processes the
entries in order (Python 2's `document.items()` snapshot), threading the
shared accumulators. -/
def stashNPArrays : SaveSt → Doc → Except MErr (Doc × SaveSt)
  | st, [] => .ok ([], st)
  | st, (k, v) :: rest =>
    match stashVal st v with
    | .error e => .error e
    | .ok (v', st1) =>
      match stashNPArrays st1 rest with
      | .error e => .error e
      | .ok (rest', st2) => .ok ((k, v') :: rest', st2)

end

mutual

/-- One value of `MongoWrapper._loadNPArrays`'s traversal (lines 289-294):
an ObjectId under any key other than `_id` is replaced by the unpickled
gridfs file; nested dicts recurse; everything else (lists included) is left
untouched. -/
def loadVal : BlobStore → String → Value → Except MErr Value
  | fs, k, .objId i =>
    if k = "_id" then .ok (.objId i)
    else
      match fetchBlob fs i with
      | none => .error .noFile
      | some bs =>
        match binary2npArray bs with
        | none => .error .parseError
        | some a => .ok (.npArray a)
  | fs, _, .dict dd =>
    match loadNPArrays fs dd with
    | .error e => .error e
    | .ok dd' => .ok (.dict dd')
  | _, _, v => .ok v

/-- Model of `MongoWrapper._loadNPArrays` over a whole dictionary. -/
def loadNPArrays : BlobStore → Doc → Except MErr Doc
  | _, [] => .ok []
  | fs, (k, v) :: rest =>
    match loadVal fs k v with
    | .error e => .error e
    | .ok v' =>
      match loadNPArrays fs rest with
      | .error e => .error e
      | .ok rest' => .ok ((k, v') :: rest')

end

/-- Reads `docCopy['_npObjectIDs']` at the top of `save` (lines 155-158):
a missing key yields the empty list (the `except KeyError` branch); a
present key must hold a list of ObjectIds to be usable by the dedup scan
(anything else would blow up in `fs.get` and is modelled as `typeError`). -/
def getOldRefs (d : Doc) : Except MErr (List Nat) :=
  match lookupKey d "_npObjectIDs" with
  | none => .ok []
  | some (.list vs) =>
    match vs.mapM (fun v => match v with | .objId i => some i | _ => none) with
    | some ids => .ok ids
    | none => .error .typeError
  | some _ => .error .typeError

/-- The primary store: one collection, documents keyed by ObjectId. -/
abbrev Collection := List (Nat × Doc)

/-- The whole database state: the gridfs blob store, the collection, the
shared fresh-ObjectId counter and a clock supplying `datetime.now()`. -/
structure DB where
  fs : BlobStore
  coll : Collection
  nextId : Nat
  clock : Nat

def emptyDB : DB := ⟨[], [], 0, 0⟩

/-- Replace the document stored under an id, or append it. -/
def replaceOrAdd : Collection → Nat → Doc → Collection
  | [], i, d => [(i, d)]
  | (j, d') :: rest, i, d =>
    if j = i then (i, d) :: rest else (j, d') :: replaceOrAdd rest i d

/-- Model of pymongo's `collection.save(docCopy)` (line 179): upsert keyed on the
document's `_id` if present, otherwise insert under a fresh ObjectId which
is also stored into the document.  Returns the id, the new collection and
the new counter.  Ids are modelled as ObjectIds only. -/
def collSave (coll : Collection) (next : Nat) (d : Doc) :
    Except MErr (Nat × Collection × Nat) :=
  match lookupKey d "_id" with
  | some (.objId i) => .ok (i, replaceOrAdd coll i d, next)
  | none => .ok (next, replaceOrAdd coll next (setKey d "_id" (.objId next)), next + 1)
  | some _ => .error .typeError

/-- The result of saving one document: the new database state, the assigned
id, the caller's document after the in-place mutations `save` performs on
it, and the ordered effect trace. -/
structure SaveRes where
  db : DB
  id : Nat
  doc : Doc
  evs : List Ev

/-- The body of `MongoWrapper.save`'s per-document loop (lines 150-181):
deep-copy, collect old references, stash arrays, store the new reference
list into both copies, delete the still-unclaimed old blobs, timestamp,
upsert the rewritten copy, merge the id back into the caller's document. -/
def saveOne (db : DB) (doc : Doc) : Except MErr SaveRes :=
  match getOldRefs doc with
  | .error e => .error e
  | .ok old =>
    match stashNPArrays ⟨db.fs, db.nextId, old, [], []⟩ doc with
    | .error e => .error e
    | .ok (docCopy1, st1) =>
      let newRefsV := Value.list (st1.newRefs.map Value.objId)
      let docCopy2 := setKey docCopy1 "_npObjectIDs" newRefsV
      let doc1 := setKey doc "_npObjectIDs" newRefsV
      let fs2 := st1.old.foldl (fun fs i => fsDelete fs i) st1.fs
      let evs2 := st1.evs ++ st1.old.map Ev.delBlob
      let docCopy3 := setKey docCopy2 "insertion_date" (.timestamp db.clock)
      let doc2 := setKey doc1 "insertion_date" (.timestamp (db.clock + 1))
      match collSave db.coll st1.nextId docCopy3 with
      | .error e => .error e
      | .ok (newId, coll2, next2) =>
        .ok ⟨⟨fs2, coll2, next2, db.clock + 2⟩, newId,
          setKey doc2 "_id" (.objId newId),
          evs2 ++ [.upsert newId]⟩

mutual

/-- Structural equality of BSON values (used by query matching). -/
def valueBeq : Value → Value → Bool
  | .int n, .int m => n == m
  | .str s, .str t => s == t
  | .bool a, .bool b => a == b
  | .timestamp s, .timestamp t => s == t
  | .objId i, .objId j => i == j
  | .binaryV a, .binaryV b => a == b
  | .npArray a, .npArray b => a == b
  | .npInt n, .npInt m => n == m
  | .dict d, .dict e => docBeq d e
  | .list vs, .list ws => valuesBeq vs ws
  | _, _ => false

def docBeq : Doc → Doc → Bool
  | [], [] => true
  | (k, v) :: rest, (k', v') :: rest' => k == k' && valueBeq v v' && docBeq rest rest'
  | _, _ => false

def valuesBeq : List Value → List Value → Bool
  | [], [] => true
  | v :: rest, v' :: rest' => valueBeq v v' && valuesBeq rest rest'
  | _, _ => false

end

/-- Query matching for `collection.find(query)`: every key-value pair of
the query must be present, with an equal value, in the document. -/
def docMatches (d : Doc) (q : Doc) : Bool :=
  q.all (fun kv =>
    match lookupKey d kv.1 with
    | some v => valueBeq v kv.2
    | none => false)

/-- Model of `collection.find(query)`. -/
def collFind (coll : Collection) (q : Doc) : List Doc :=
  (coll.filter (fun p => docMatches p.2 q)).map (fun p => p.2)

/-- Model of the point query `collection.find_one` on an identity. -/
def collFindOne (coll : Collection) (i : Nat) : Option Doc :=
  (coll.find? (fun p => p.1 = i)).map (fun p => p.2)

/-- Model of `collection.remove(objectId)`. -/
def collRemove (coll : Collection) (i : Nat) : Collection :=
  coll.filter (fun p => p.1 ≠ i)

/-- The shape of `load`'s return value: Python `None`, a single document,
or a list of documents. -/
inductive LoadRes where
  | nothing
  | one (d : Doc)
  | many (ds : List Doc)

/-- The list comprehension `[self._loadNPArrays(doc) for doc in results]`:
expansion of every match, failing on the first error. -/
def expandAll (fs : BlobStore) : List Doc → Except MErr (List Doc)
  | [] => .ok []
  | d :: rest =>
    match loadNPArrays fs d with
    | .error e => .error e
    | .ok d' =>
      match expandAll fs rest with
      | .error e => .error e
      | .ok rest' => .ok (d' :: rest')

/-- Model of `MongoWrapper.load` (lines 210-235): query, optional array expansion,
then the nonempty / more-than-one / exactly-one / empty return-shape
branches. -/
def load (db : DB) (q : Doc) (getarrays : Bool) : Except MErr LoadRes :=
  match (if getarrays then expandAll db.fs (collFind db.coll q)
         else .ok (collFind db.coll q)) with
  | .error e => .error e
  | .ok allResults =>
    match allResults with
    | [] => .ok .nothing
    | [d] => .ok (.one d)
    | ds => .ok (.many ds)

/-- Model of `MongoWrapper.delete` (lines 237-251): `find_one`, then an *unguarded*
`documentToDelete['_npObjectIDs']` — on a missing document this subscripts
`None` and raises `TypeError`; on a document without the key it raises
`KeyError`.  Otherwise every referenced blob is deleted from gridfs and the
document is removed.  The state is returned alongside the error so that
partial effects are observable (none occur before the raise). -/
def delete (db : DB) (objectId : Nat) : DB × Option MErr :=
  match collFindOne db.coll objectId with
  | none => (db, some .typeError)
  | some d =>
    match lookupKey d "_npObjectIDs" with
    | none => (db, some .keyError)
    | some (.list vs) =>
      match vs.mapM (fun v => match v with | .objId i => some i | _ => none) with
      | none => (db, some .typeError)
      | some ids =>
        ({ db with fs := ids.foldl fsDelete db.fs, coll := collRemove db.coll objectId },
          none)
    | some _ => (db, some .typeError)

/-! ### Properties of save traces -/

def isDel : Ev → Bool
  | .delBlob _ => true
  | _ => false

def isUpsert : Ev → Bool
  | .upsert _ => true
  | _ => false

/-- The ordering property claimed of `save`: a blob deletion happens only
after the document upsert has completed, i.e. no deletion occurs strictly
before the first upsert of the trace. -/
def orphanDelOnlyAfterUpsert (evs : List Ev) : Bool :=
  ((evs.takeWhile fun e => !(isUpsert e)).filter isDel).isEmpty

/-- The ordering property the code actually has: every blob deletion
strictly precedes the document upsert, i.e. no deletion occurs at or after
the first upsert of the trace. -/
def delsPrecedeUpsert (evs : List Ev) : Bool :=
  ((evs.dropWhile fun e => !(isUpsert e)).filter isDel).isEmpty

/-- Number of blobs present in the blob store that the document's
`_npObjectIDs` reference list points at. -/
def referencedBlobCount (db : DB) (d : Doc) : Nat :=
  match lookupKey d "_npObjectIDs" with
  | some (.list vs) =>
    ((vs.filterMap fun v => match v with | .objId i => some i | _ => none).filter
      (fun i => (fetchBlob db.fs i).isSome)).length
  | _ => 0

/-! ### Shared-accumulator step model of concurrent saves

`save` keeps its two reference accumulators on the wrapper *instance*
(`self.temp_oldNpObjectIDs`, `self.temp_newNpObjectIds`, lines 156-172), so
two in-flight `save` calls on the same instance act on the same cells.  To
state what that sharing does, the accumulator-touching statements of the
save routine are modelled as atomic steps on the shared state, and a
schedule (a list of steps, possibly interleaving several logical calls) is
executed sequentially. -/

/-- The wrapper-instance state shared by every `save` invocation: the two
accumulator attributes plus the fresh-ObjectId counter. -/
structure Shared where
  tempOld : List Nat
  tempNew : List Nat
  nextId : Nat
deriving Repr, DecidableEq

/-- Atomic accumulator-touching steps of one `save` call:
`initAccums refs` is lines 156-160 (load the old reference list, reset the
new one); `stashFreshArray` is lines 325-329 for an array with no hash
match (insert a fresh blob, append its id to `temp_newNpObjectIds`);
`readNewRefs` is lines 164-165 (store the accumulated reference list into
the document). -/
inductive SaveStep where
  | initAccums (refs : List Nat)
  | stashFreshArray
  | readNewRefs
deriving Repr, DecidableEq

/-- Effect of one step on the shared instance state; `readNewRefs` emits
the reference list the running call will store into its document. -/
def stepSave : Shared → SaveStep → Shared × Option (List Nat)
  | s, .initAccums refs => ({ s with tempOld := refs, tempNew := [] }, none)
  | s, .stashFreshArray =>
    ({ s with tempNew := s.tempNew ++ [s.nextId], nextId := s.nextId + 1 }, none)
  | s, .readNewRefs => (s, some s.tempNew)

/-- Run a schedule of steps, collecting every emitted reference list in
order. -/
def runSteps : Shared → List SaveStep → Shared × List (List Nat)
  | s, [] => (s, [])
  | s, a :: rest =>
    ((runSteps (stepSave s a).1 rest).1,
      match (stepSave s a).2 with
      | none => (runSteps (stepSave s a).1 rest).2
      | some r => r :: (runSteps (stepSave s a).1 rest).2)

/-- The step sequence of one `save` call on a fresh document holding
`numArrays` numpy arrays. -/
def saveProg (numArrays : Nat) : List SaveStep :=
  .initAccums [] :: (List.replicate numArrays .stashFreshArray ++ [.readNewRefs])

/-! ### Concrete inputs used by the concrete theorems -/

/-- A one-element array (data `[0]`). -/
def arrA : NpArray := ⟨[1], 0, [0]⟩

/-- A one-element array (data `[1]`), with different content than `arrA`. -/
def arrB : NpArray := ⟨[1], 0, [1]⟩

/-- A fresh document with equal-content arrays at `x` and `z` and a
different array at `y`. -/
def doc3 : Doc := [("x", .npArray arrA), ("y", .npArray arrB), ("z", .npArray arrA)]

/-- A database holding one gridfs blob (id 0, bytes `[9]`) and no
documents. -/
def db1 : DB := ⟨[(0, [9])], [], 1, 0⟩

/-- A document whose reference list points at blob 0 and which holds no
numpy array, so that blob 0 is orphaned by a save. -/
def doc1 : Doc := [("name", .str "x"), ("_npObjectIDs", .list [.objId 0])]

/-- A save-state whose blob store holds three blobs, of which the first
and third have identical content (hence identical md5), and whose old
reference list mentions all three. -/
def st2 : SaveSt :=
  ⟨[(10, npArray2Binary arrA), (11, npArray2Binary arrB), (12, npArray2Binary arrA)],
    13, [10, 11, 12], [], []⟩

/-- The effect trace of a save attempt. -/
def saveEvs (x : Except MErr SaveRes) : Except MErr (List Ev) :=
  x.map (fun r => r.evs)

/-- The result of the first save of `doc3` from the empty database. -/
def r31 : SaveRes :=
  ⟨⟨[(0, npArray2Binary arrA), (1, npArray2Binary arrB), (2, npArray2Binary arrA)],
      [(3, [("x", .objId 0), ("y", .objId 1), ("z", .objId 2),
            ("_npObjectIDs", .list [.objId 0, .objId 1, .objId 2]),
            ("insertion_date", .timestamp 0), ("_id", .objId 3)])], 4, 2⟩,
    3,
    [("x", .npArray arrA), ("y", .npArray arrB), ("z", .npArray arrA),
     ("_npObjectIDs", .list [.objId 0, .objId 1, .objId 2]),
     ("insertion_date", .timestamp 1), ("_id", .objId 3)],
    [.putBlob 0, .putBlob 1, .putBlob 2, .upsert 3]⟩

/-- The result of immediately re-saving `r31`'s document unchanged. -/
def r32 : SaveRes :=
  ⟨⟨[(0, npArray2Binary arrA), (1, npArray2Binary arrB), (2, npArray2Binary arrA),
      (4, npArray2Binary arrA)],
      [(3, [("x", .objId 2), ("y", .objId 1), ("z", .objId 4),
            ("_npObjectIDs", .list [.objId 0, .objId 2, .objId 1, .objId 4]),
            ("insertion_date", .timestamp 2), ("_id", .objId 3)])], 5, 4⟩,
    3,
    [("x", .npArray arrA), ("y", .npArray arrB), ("z", .npArray arrA),
     ("_npObjectIDs", .list [.objId 0, .objId 2, .objId 1, .objId 4]),
     ("insertion_date", .timestamp 3), ("_id", .objId 3)],
    [.putBlob 4, .upsert 3]⟩

/-- A minimal fresh document with one scalar field. -/
def doc4 : Doc := [("name", .str "x")]

/-- The result of saving `doc4` from the empty database. -/
def r4 : SaveRes :=
  ⟨⟨[], [(0, [("name", .str "x"), ("_npObjectIDs", .list []),
              ("insertion_date", .timestamp 0), ("_id", .objId 0)])], 1, 2⟩,
    0,
    [("name", .str "x"), ("_npObjectIDs", .list []),
     ("insertion_date", .timestamp 1), ("_id", .objId 0)],
    [.upsert 0]⟩

/-- The result of saving `doc1` against `db1` (orphaning blob 0). -/
def r11 : SaveRes :=
  ⟨⟨[], [(1, [("name", .str "x"), ("_npObjectIDs", .list []),
              ("insertion_date", .timestamp 0), ("_id", .objId 1)])], 2, 2⟩,
    1,
    [("name", .str "x"), ("_npObjectIDs", .list []),
     ("insertion_date", .timestamp 1), ("_id", .objId 1)],
    [.delBlob 0, .upsert 1]⟩

/-- Documents and database used to exercise the three return shapes of
`load`. -/
def dA5 : Doc := [("a", .int 1)]

def dB5 : Doc := [("a", .int 1), ("b", .int 2)]

def dC5 : Doc := [("b", .int 2)]

def db5 : DB := ⟨[], [(0, dA5), (1, dB5), (2, dC5)], 3, 0⟩

def qZero : Doc := [("c", .int 9)]

def qOne : Doc := [("a", .int 1), ("b", .int 2)]

def qMany : Doc := [("a", .int 1)]

/-- An interleaving of two one-array save calls on the same wrapper
instance: both initialize the accumulators, then both stash their array,
then both read the accumulated reference list. -/
def interleavedSched : List SaveStep :=
  [.initAccums [], .initAccums [], .stashFreshArray, .stashFreshArray,
   .readNewRefs, .readNewRefs]

mutual

/-- A user value that round-trips through externalization: no raw
ObjectId stored as a dictionary value (it would be mistaken for a blob
reference on load), no numpy integral scalar (normalized in place by the
encode pass), and no dictionary key named `_id` at any level (the decode
pass never expands under the identity key). -/
def cleanVal : Value → Bool
  | .objId _ => false
  | .npInt _ => false
  | .dict dd => cleanDoc dd
  | _ => true

/-- Conjunction of `cleanVal` over every entry of a dictionary. -/
def cleanDoc : Doc → Bool
  | [] => true
  | (k, v) :: rest => (k != "_id") && cleanVal v && cleanDoc rest

end

/-- Blob-store extension: every fetchable blob stays fetchable with the
same bytes. -/
def FsExt (fs1 fs2 : BlobStore) : Prop :=
  ∀ i bs, fetchBlob fs1 i = some bs → fetchBlob fs2 i = some bs

/-- Invariant of the save state in a fresh-document save: no old
references remain to be claimed, and every stored blob id is below the
fresh-id counter. -/
def StInv (st : SaveSt) : Prop :=
  st.old = [] ∧ ∀ p ∈ st.fs, p.1 < st.nextId

/-- A fresh document with a scalar and an array field. -/
def d7 : Doc := [("name", .str "t"), ("data", .npArray arrA)]

/-! ## Theorems -/

/-- Element coding round-trips. -/
theorem decInt_encInt (n : Int) : decInt (encInt n) = n := by
  unfold encInt decInt
  by_cases h : 0 ≤ n
  · rw [if_pos h, if_pos (by omega)]
    omega
  · rw [if_neg h, if_neg (by omega)]
    omega

/-- The pickle encoding is lossless: decoding an encoded array returns the
array (shape, dtype and data included). -/
theorem binary2npArray_npArray2Binary (a : NpArray) :
    binary2npArray (npArray2Binary a) = some a := by
  rcases a with ⟨shape, dtype, data⟩
  have hle : shape.length ≤ (shape ++ dtype :: data.length :: data.map encInt).length := by
    simp
  have hdrop : (shape ++ dtype :: data.length :: data.map encInt).drop shape.length =
      dtype :: data.length :: data.map encInt := List.drop_left _ _
  have htake : (shape ++ dtype :: data.length :: data.map encInt).take shape.length =
      shape := List.take_left _ _
  rw [show binary2npArray (npArray2Binary ⟨shape, dtype, data⟩) =
      (if shape.length ≤ (shape ++ dtype :: data.length :: data.map encInt).length then
        (match (shape ++ dtype :: data.length :: data.map encInt).drop shape.length with
          | dt :: len :: dataBytes =>
            if dataBytes.length = len then
              some ⟨(shape ++ dtype :: data.length :: data.map encInt).take shape.length, dt,
                dataBytes.map decInt⟩
            else none
          | _ => none)
      else none) from rfl]
  rw [if_pos hle, hdrop, htake]
  simp only [List.length_map, if_pos rfl, List.map_map]
  rw [if_pos trivial]
  refine congrArg some (congrArg (NpArray.mk shape dtype) ?_)
  rw [show decInt ∘ encInt = fun n => decInt (encInt n) from rfl]
  exact (List.map_congr_left fun n _ => decInt_encInt n).trans (List.map_id data)

/-- C1, counterexample: saving a document that orphans blob 0 succeeds with
the effect trace deletion-then-upsert, so the orphan is deleted *before*
the document upsert — refuting deletion-only-after-upsert at this input. -/
theorem save_deletes_orphan_before_upsert :
    saveOne db1 doc1 = .ok r11 ∧ r11.evs = [.delBlob 0, .upsert 1] ∧
      orphanDelOnlyAfterUpsert r11.evs = false :=
  ⟨rfl, rfl, rfl⟩

/-- C2, evaluation at the failing input: with previous references
`[10, 11, 12]` where blobs 10 and 12 both carry the array's content hash,
the dedup scan reuses *both* old blobs — it appends the two entries
`[10, 12]` to the new reference list and leaves the id of the *last* match
(12, not the first match 10) in the array's slot, while blob 11 is skipped
by the remove-during-iteration and stays in the old list. -/
theorem stash_reuses_two_old_blobs :
    stashNPArrays st2 [("d", .npArray arrA)] =
      .ok ([("d", .objId 12)],
        ⟨[(10, npArray2Binary arrA), (11, npArray2Binary arrB), (12, npArray2Binary arrA)],
          13, [11], [10, 12], []⟩) :=
  rfl

/-- C3, evaluation at the failing input: saving `doc3` (arrays A, B, A)
and re-saving the unchanged result does not leave the reference list
intact: the first save yields references `[0, 1, 2]`, the second yields
`[0, 2, 1, 4]` — reordered and with a fresh blob 4 inserted — and the
count of store-resident referenced blobs grows from 3 to 4. -/
theorem save_unchanged_twice_not_stable :
    saveOne emptyDB doc3 = .ok r31 ∧ saveOne r31.db r31.doc = .ok r32 ∧
    lookupKey r31.doc "_npObjectIDs" =
      some (.list [.objId 0, .objId 1, .objId 2]) ∧
    lookupKey r32.doc "_npObjectIDs" =
      some (.list [.objId 0, .objId 2, .objId 1, .objId 4]) ∧
    referencedBlobCount r31.db r31.doc = 3 ∧
    referencedBlobCount r32.db r32.doc = 4 :=
  ⟨rfl, rfl, rfl, rfl, rfl, rfl⟩

/-- C4, counterexample: saving `doc4` writes the key `insertion_date`
into the caller's document, which is neither the identity nor the
reference list, refuting the claim that only those two are merged back. -/
theorem save_adds_insertion_date_to_caller :
    saveOne emptyDB doc4 = .ok r4 ∧
    lookupKey doc4 "insertion_date" = none ∧
    lookupKey r4.doc "insertion_date" = some (.timestamp 1) ∧
    "insertion_date" ≠ "_id" ∧ "insertion_date" ≠ "_npObjectIDs" :=
  ⟨rfl, rfl, rfl, by decide, by decide⟩

/-- C6, counterexample: deleting from the empty database raises the
unguarded `TypeError` from subscripting `None`, not `NotFoundError`. -/
theorem delete_missing_raises_typeError :
    delete emptyDB 0 = (emptyDB, some .typeError) ∧
    MErr.typeError ≠ MErr.notFoundError :=
  ⟨rfl, by decide⟩

/-- C6, amended: `delete` of an identity with no matching document fails
with the unguarded `TypeError` (subscripting the `None` returned by
`find_one`), and performs no deletion at all: the database is returned
unchanged. -/
theorem delete_missing_unguarded (db : DB) (objectId : Nat)
    (h : collFindOne db.coll objectId = none) :
    delete db objectId = (db, some .typeError) := by
  unfold delete
  rw [h]

/-- Witness for `delete_missing_unguarded` at the empty database. -/
theorem delete_missing_unguarded_witness :
    collFindOne emptyDB.coll 0 = none ∧
    delete emptyDB 0 = (emptyDB, some MErr.typeError) :=
  ⟨rfl, delete_missing_unguarded emptyDB 0 rfl⟩

/-- C9: a fresh document (no previous reference list) holding the same
array under two keys stores two distinct blobs with identical bytes and
gets the two distinct ids `[0, 1]` in its reference list — deduplication
never consults blobs inserted earlier in the same save. -/
theorem new_doc_identical_arrays_two_blobs (a : NpArray) :
    ∃ r, saveOne emptyDB [("u", .npArray a), ("w", .npArray a)] = .ok r ∧
      lookupKey r.doc "_npObjectIDs" = some (.list [.objId 0, .objId 1]) ∧
      fetchBlob r.db.fs 0 = some (npArray2Binary a) ∧
      fetchBlob r.db.fs 1 = some (npArray2Binary a) ∧
      (0 : Nat) ≠ 1 :=
  ⟨_, rfl, rfl, rfl, rfl, by decide⟩

/-- C10: both traversal passes treat a python-list value as opaque: the
encode pass returns it unchanged with the save-state untouched (no blob
inserted, no reference appended), the decode pass returns it unchanged,
and a document holding only such a value passes through a full save and
an expanding load with the value intact and an empty reference list. -/
theorem lists_opaque_to_traversals (st : SaveSt) (fs : BlobStore) (k : String)
    (vs : List Value) :
    stashVal st (.list vs) = .ok (.list vs, st) ∧
    loadVal fs k (.list vs) = .ok (.list vs) ∧
    saveOne emptyDB [("stuff", .list vs)] =
      .ok ⟨⟨[], [(0, [("stuff", .list vs), ("_npObjectIDs", .list []),
                     ("insertion_date", .timestamp 0), ("_id", .objId 0)])], 1, 2⟩,
        0,
        [("stuff", .list vs), ("_npObjectIDs", .list []),
         ("insertion_date", .timestamp 1), ("_id", .objId 0)],
        [.upsert 0]⟩ ∧
    load ⟨[], [(0, [("stuff", .list vs), ("_npObjectIDs", .list []),
                    ("insertion_date", .timestamp 0), ("_id", .objId 0)])], 1, 2⟩
        [("_id", .objId 0)] true =
      .ok (.one [("stuff", .list vs), ("_npObjectIDs", .list []),
                 ("insertion_date", .timestamp 0), ("_id", .objId 0)]) :=
  ⟨rfl, rfl, rfl, rfl⟩

/-- C8, counterexample: interleaving two one-array saves on the same
wrapper instance makes *both* calls read the reference list `[0, 1]` — the
first call's document ends up referencing blob 1, which the second call
created — whereas the same two calls run back to back read `[0]` and `[1]`
respectively.  The shared accumulators do interfere. -/
theorem interleaved_saves_interfere :
    (runSteps ⟨[], [], 0⟩ interleavedSched).2 = [[0, 1], [0, 1]] ∧
    (runSteps ⟨[], [], 0⟩ (saveProg 1 ++ saveProg 1)).2 = [[0], [1]] ∧
    ([0, 1] : List Nat) ≠ [0] :=
  ⟨rfl, rfl, by decide⟩

/-- Running a schedule decomposes over concatenation. -/
theorem runSteps_append (s : Shared) (l1 l2 : List SaveStep) :
    runSteps s (l1 ++ l2) =
      ((runSteps (runSteps s l1).1 l2).1,
        (runSteps s l1).2 ++ (runSteps (runSteps s l1).1 l2).2) := by
  induction l1 generalizing s with
  | nil => simp [runSteps]
  | cons a rest ih =>
    cases h2 : (stepSave s a).2 <;>
      simp only [List.cons_append, runSteps, h2, List.append_eq] <;> rw [ih] <;> simp

/-- Effect of `k` fresh-array stashes followed by the reference-list read:
the ids `nextId, …, nextId + k - 1` are appended to the accumulator and
read out. -/
theorem runSteps_stash_read (k : Nat) (s : Shared) :
    runSteps s (List.replicate k .stashFreshArray ++ [.readNewRefs]) =
      ({ s with tempNew := s.tempNew ++ List.range' s.nextId k, nextId := s.nextId + k },
        [s.tempNew ++ List.range' s.nextId k]) := by
  induction k generalizing s with
  | zero => simp [runSteps, stepSave]
  | succ k ih =>
    have h2 : s.tempNew ++ List.range' s.nextId (k + 1) =
        (s.tempNew ++ [s.nextId]) ++ List.range' (s.nextId + 1) k := by
      rw [List.range'_succ]
      simp
    have h1 : s.nextId + 1 + k = s.nextId + (k + 1) := by omega
    simp only [List.replicate_succ, List.cons_append, runSteps, stepSave, List.append_eq]
    rw [ih]
    simp [h1, h2]

/-- C8, amended: the two traversal accumulators are *shared instance
state*, so interleaved saves on one instance can interfere (see
`interleaved_saves_interfere`); strictly sequential invocations are
isolated because every save reinitializes the accumulators — composing two
complete save step-sequences back to back gives each call exactly its own
freshly allocated blob ids. -/
theorem sequential_saves_isolated (s : Shared) (k1 k2 : Nat) :
    (runSteps s (saveProg k1 ++ saveProg k2)).2 =
      [List.range' s.nextId k1, List.range' (s.nextId + k1) k2] := by
  rw [runSteps_append]
  simp only [saveProg, runSteps, stepSave, List.append_eq]
  rw [runSteps_stash_read, runSteps_stash_read]
  simp

/-- C5: the return shape of `load`.  Zero matches give `nothing` (and no
error, in both expansion modes); exactly one match gives the document
itself (`one`), expanded if requested; two or more matches give the full
list (`many`). -/
theorem load_return_shape (db : DB) (q : Doc) :
    (collFind db.coll q = [] →
      load db q true = .ok .nothing ∧ load db q false = .ok .nothing) ∧
    (∀ d, collFind db.coll q = [d] →
      load db q false = .ok (.one d) ∧
      ∀ e, loadNPArrays db.fs d = .ok e → load db q true = .ok (.one e)) ∧
    (∀ d1 d2 ds, collFind db.coll q = d1 :: d2 :: ds →
      load db q false = .ok (.many (d1 :: d2 :: ds)) ∧
      ∀ e1 e2 es, expandAll db.fs (d1 :: d2 :: ds) = .ok (e1 :: e2 :: es) →
        load db q true = .ok (.many (e1 :: e2 :: es))) := by
  refine ⟨fun h => ⟨?_, ?_⟩, fun d h => ⟨?_, fun e he => ?_⟩,
    fun d1 d2 ds h => ⟨?_, fun e1 e2 es he => ?_⟩⟩
  · simp [load, h, expandAll]
  · simp [load, h]
  · simp [load, h]
  · simp [load, h, expandAll, he]
  · simp [load, h]
  · simp [load, h, he]

/-- Witness for `load_return_shape` on a three-document database with
queries matching zero, one and two documents. -/
theorem load_return_shape_witness :
    load db5 qZero true = .ok .nothing ∧
    load db5 qOne false = .ok (.one dB5) ∧
    load db5 qOne true = .ok (.one dB5) ∧
    load db5 qMany false = .ok (.many [dA5, dB5]) ∧
    load db5 qMany true = .ok (.many [dA5, dB5]) :=
  ⟨((load_return_shape db5 qZero).1 rfl).1,
    ((load_return_shape db5 qOne).2.1 dB5 rfl).1,
    ((load_return_shape db5 qOne).2.1 dB5 rfl).2 dB5 rfl,
    ((load_return_shape db5 qMany).2.2 dA5 dB5 [] rfl).1,
    ((load_return_shape db5 qMany).2.2 dA5 dB5 [] rfl).2 dA5 dB5 [] rfl⟩

/-- Python dictionary update under a different key leaves lookups of the
other key unchanged. -/
theorem lookupKey_setKey_ne (d : Doc) (k k' : String) (v : Value) (h : k ≠ k') :
    lookupKey (setKey d k' v) k = lookupKey d k := by
  induction d with
  | nil =>
    simp only [setKey, lookupKey]
    rw [if_neg (fun hh => h hh.symm)]
  | cons p rest ih =>
    obtain ⟨k0, v0⟩ := p
    simp only [setKey]
    by_cases hk : k0 = k'
    · rw [if_pos hk]
      simp only [lookupKey]
      rw [if_neg (fun hh => h hh.symm), if_neg (by rw [hk]; exact fun hh => h hh.symm)]
    · rw [if_neg hk]
      simp only [lookupKey]
      by_cases hk0 : k0 = k
      · rw [if_pos hk0, if_pos hk0]
      · rw [if_neg hk0, if_neg hk0, ih]

/-- Successful saves decompose into their pipeline stages: reference
collection, stash pass, upsert of the rewritten copy, and the merge-back
into the caller's document, with the effect trace
stash-puts ++ orphan-deletes ++ upsert. -/
theorem saveOne_ok_shape (db : DB) (doc : Doc) (r : SaveRes)
    (h : saveOne db doc = .ok r) :
    ∃ old docCopy1 st1 newId coll2 next2,
      getOldRefs doc = .ok old ∧
      stashNPArrays ⟨db.fs, db.nextId, old, [], []⟩ doc = .ok (docCopy1, st1) ∧
      collSave db.coll st1.nextId
          (setKey (setKey docCopy1 "_npObjectIDs" (Value.list (st1.newRefs.map Value.objId)))
            "insertion_date" (.timestamp db.clock)) = .ok (newId, coll2, next2) ∧
      r = ⟨⟨st1.old.foldl (fun fs i => fsDelete fs i) st1.fs, coll2, next2, db.clock + 2⟩,
        newId,
        setKey (setKey (setKey doc "_npObjectIDs" (Value.list (st1.newRefs.map Value.objId)))
          "insertion_date" (.timestamp (db.clock + 1))) "_id" (.objId newId),
        st1.evs ++ st1.old.map Ev.delBlob ++ [.upsert newId]⟩ := by
  unfold saveOne at h
  cases hg : getOldRefs doc with
  | error e => rw [hg] at h; cases h
  | ok old =>
    rw [hg] at h
    dsimp only at h
    cases hs : stashNPArrays ⟨db.fs, db.nextId, old, [], []⟩ doc with
    | error e => rw [hs] at h; cases h
    | ok p =>
      obtain ⟨docCopy1, st1⟩ := p
      rw [hs] at h
      dsimp only at h
      cases hcs : collSave db.coll st1.nextId
          (setKey (setKey docCopy1 "_npObjectIDs" (Value.list (st1.newRefs.map Value.objId)))
            "insertion_date" (.timestamp db.clock)) with
      | error e => rw [hcs] at h; cases h
      | ok t =>
        obtain ⟨newId, coll2, next2⟩ := t
        rw [hcs] at h
        dsimp only at h
        cases h
        exact ⟨old, docCopy1, st1, newId, coll2, next2, rfl, hs, hcs, rfl⟩

/-- C4, amended: `save` changes the caller's document only at the three
reserved keys — the assigned identity `_id`, the reference list
`_npObjectIDs` and the timestamp `insertion_date`; every other key's value
(including nested structure and arrays) is left exactly as passed in. -/
theorem save_touches_only_reserved_keys (db : DB) (doc : Doc) (r : SaveRes)
    (k : String) (h : saveOne db doc = .ok r) (h1 : k ≠ "_id")
    (h2 : k ≠ "_npObjectIDs") (h3 : k ≠ "insertion_date") :
    lookupKey r.doc k = lookupKey doc k := by
  obtain ⟨old, docCopy1, st1, newId, coll2, next2, -, -, -, hr⟩ :=
    saveOne_ok_shape db doc r h
  subst hr
  simp only
  rw [lookupKey_setKey_ne _ _ _ _ h1, lookupKey_setKey_ne _ _ _ _ h3,
    lookupKey_setKey_ne _ _ _ _ h2]

/-- Witness for `save_touches_only_reserved_keys`: the key `name` of
`doc4` survives the save untouched. -/
theorem save_touches_only_reserved_keys_witness :
    saveOne emptyDB doc4 = .ok r4 ∧
    lookupKey r4.doc "name" = lookupKey doc4 "name" :=
  ⟨rfl, save_touches_only_reserved_keys emptyDB doc4 r4 "name" rfl
    (by decide) (by decide) (by decide)⟩

/-- The stash pass records only blob-put effects: every event in its
post-state trace was already in the pre-state trace or is not an upsert. -/
theorem stashNPArrays_evs_aux :
    ∀ n, ∀ d : Doc, sizeOf d ≤ n → ∀ st d' st',
      stashNPArrays st d = .ok (d', st') →
      ∀ e ∈ st'.evs, e ∈ st.evs ∨ isUpsert e = false := by
  intro n
  induction n using Nat.strong_induction_on with
  | _ n ih =>
    intro d hle st d' st' h e he
    match d with
    | [] =>
      have h' : Except.ok (([] : Doc), st) = Except.ok (d', st') := h
      cases h'
      exact .inl he
    | (k, v) :: rest =>
      have hszcons : sizeOf ((k, v) :: rest) = 1 + (1 + sizeOf k + sizeOf v) + sizeOf rest := by
        simp
      have hn : 1 ≤ n := by omega
      have hrest : sizeOf rest ≤ n - 1 := by omega
      have h' : (match stashVal st v with
        | .error e => Except.error e
        | .ok (v', st1) =>
          match stashNPArrays st1 rest with
          | .error e => Except.error e
          | .ok (rest', st2) => Except.ok ((k, v') :: rest', st2)) = Except.ok (d', st') := h
      cases hv : stashVal st v with
      | error e1 => rw [hv] at h'; cases h'
      | ok p =>
        obtain ⟨v', st1⟩ := p
        rw [hv] at h'
        dsimp only at h'
        cases hrst : stashNPArrays st1 rest with
        | error e1 => rw [hrst] at h'; cases h'
        | ok q =>
          obtain ⟨rest', st2⟩ := q
          rw [hrst] at h'
          dsimp only at h'
          cases h'
          rcases ih (n - 1) (by omega) rest hrest st1 rest' st' hrst e he with h1 | h1
          · -- the event was already present before the tail was processed:
            -- analyze what stashing the single value did to the trace
            clear h hrst he
            match v with
            | .npArray a =>
              unfold stashVal at hv
              dsimp only at hv
              split at hv
              · cases hv
              · split at hv
                · cases hv
                  exact .inl h1
                · cases hv
                  rcases List.mem_append.mp h1 with h2 | h2
                  · exact .inl h2
                  · rcases List.mem_singleton.mp h2 with rfl
                    exact .inr rfl
            | .dict dd =>
              have hdd : sizeOf dd ≤ n - 1 := by
                have hsz : sizeOf ((k, Value.dict dd) :: rest) =
                    1 + (1 + sizeOf k + (1 + sizeOf dd)) + sizeOf rest := by simp
                omega
              have hv' : (match stashNPArrays st dd with
                | .error e => Except.error e
                | .ok (dd', st1') => Except.ok (Value.dict dd', st1')) = Except.ok (v', st1) := hv
              cases hdds : stashNPArrays st dd with
              | error e1 => rw [hdds] at hv'; cases hv'
              | ok q' =>
                obtain ⟨dd', st1'⟩ := q'
                rw [hdds] at hv'
                dsimp only at hv'
                cases hv'
                exact ih (n - 1) (by omega) dd hdd st dd' st1 hdds e h1
            | .npInt m =>
              have hv' : Except.ok ((Value.int m : Value), st) = Except.ok (v', st1) := hv
              cases hv'
              exact .inl h1
            | .int m =>
              have hv' : Except.ok ((Value.int m : Value), st) = Except.ok (v', st1) := hv
              cases hv'
              exact .inl h1
            | .str s0 =>
              have hv' : Except.ok ((Value.str s0 : Value), st) = Except.ok (v', st1) := hv
              cases hv'
              exact .inl h1
            | .bool b0 =>
              have hv' : Except.ok ((Value.bool b0 : Value), st) = Except.ok (v', st1) := hv
              cases hv'
              exact .inl h1
            | .timestamp t0 =>
              have hv' : Except.ok ((Value.timestamp t0 : Value), st) = Except.ok (v', st1) := hv
              cases hv'
              exact .inl h1
            | .objId i0 =>
              have hv' : Except.ok ((Value.objId i0 : Value), st) = Except.ok (v', st1) := hv
              cases hv'
              exact .inl h1
            | .binaryV bs0 =>
              have hv' : Except.ok ((Value.binaryV bs0 : Value), st) = Except.ok (v', st1) := hv
              cases hv'
              exact .inl h1
            | .list vs0 =>
              have hv' : Except.ok ((Value.list vs0 : Value), st) = Except.ok (v', st1) := hv
              cases hv'
              exact .inl h1
          · exact .inr h1

/-- C1, amended: cleanup runs *before* the commit point — in every
successful save the orphaned blobs are deleted strictly before the
document upsert, which is the final effect of the trace. -/
theorem save_orphan_deletes_precede_upsert (db : DB) (doc : Doc) (r : SaveRes)
    (h : saveOne db doc = .ok r) : delsPrecedeUpsert r.evs = true := by
  obtain ⟨old, docCopy1, st1, newId, coll2, next2, hg, hs, hcs, hr⟩ :=
    saveOne_ok_shape db doc r h
  have hst : ∀ e ∈ st1.evs, isUpsert e = false := by
    intro e he
    rcases stashNPArrays_evs_aux (sizeOf doc) doc le_rfl _ _ _ hs e he with h' | h'
    · simp at h'
    · exact h'
  subst hr
  show delsPrecedeUpsert (st1.evs ++ st1.old.map Ev.delBlob ++ [.upsert newId]) = true
  unfold delsPrecedeUpsert
  rw [List.append_assoc,
    List.dropWhile_append_of_pos (fun a ha => by rw [hst a ha]; rfl),
    List.dropWhile_append_of_pos (fun a ha => by
      obtain ⟨i, -, rfl⟩ := List.mem_map.mp ha
      rfl)]
  rfl

/-- Witness for `save_orphan_deletes_precede_upsert` at the orphaning
save of `doc1`. -/
theorem save_orphan_deletes_precede_upsert_witness :
    saveOne db1 doc1 = .ok r11 ∧ delsPrecedeUpsert r11.evs = true :=
  ⟨rfl, save_orphan_deletes_precede_upsert db1 doc1 r11 rfl⟩

/-- A fetchable blob stays fetchable after the store grows on the right. -/
theorem fetchBlob_append_left (fs l : BlobStore) (i : Nat) (bs : List Nat)
    (h : fetchBlob fs i = some bs) : fetchBlob (fs ++ l) i = some bs := by
  unfold fetchBlob at h ⊢
  rw [List.find?_append]
  cases hf : fs.find? (fun p => p.1 = i) with
  | none => rw [hf] at h; cases h
  | some q => rw [hf] at h; simpa using h

/-- Appending a blob under a strictly fresh id makes it fetchable. -/
theorem fetchBlob_append_fresh (fs : BlobStore) (n : Nat) (bs : List Nat)
    (h : ∀ p ∈ fs, p.1 < n) : fetchBlob (fs ++ [(n, bs)]) n = some bs := by
  unfold fetchBlob
  rw [List.find?_append]
  have hnone : fs.find? (fun p => p.1 = n) = none := by
    rw [List.find?_eq_none]
    intro x hx
    have := h x hx
    simp only [decide_eq_true_eq]
    omega
  rw [hnone]
  simp [List.find?]

/-- Transitivity of `FsExt`. -/
theorem FsExt.trans {fs1 fs2 fs3 : BlobStore} (h1 : FsExt fs1 fs2)
    (h2 : FsExt fs2 fs3) : FsExt fs1 fs3 :=
  fun i bs h => h2 i bs (h1 i bs h)

/-- Appending one fresh blob is an `FsExt`. -/
theorem FsExt.push (fs : BlobStore) (q : Nat × List Nat) :
    FsExt fs (fs ++ [q]) :=
  fun i bs h => fetchBlob_append_left fs [q] i bs h

/-- A key found on the left of an append is found in the append. -/
theorem lookupKey_append_left (l1 l2 : Doc) (k : String) (v : Value)
    (h : lookupKey l1 k = some v) : lookupKey (l1 ++ l2) k = some v := by
  induction l1 with
  | nil => cases h
  | cons kv rest ih =>
    obtain ⟨k0, v0⟩ := kv
    by_cases hk : k0 = k
    · simp only [lookupKey, if_pos hk] at h
      simp only [List.cons_append, lookupKey, if_pos hk]
      exact h
    · simp only [lookupKey, if_neg hk] at h
      simp only [List.cons_append, lookupKey, if_neg hk]
      exact ih h

/-- A key absent on the left of an append is looked up on the right. -/
theorem lookupKey_append_right (l1 l2 : Doc) (k : String)
    (h : lookupKey l1 k = none) : lookupKey (l1 ++ l2) k = lookupKey l2 k := by
  induction l1 with
  | nil => rfl
  | cons kv rest ih =>
    obtain ⟨k0, v0⟩ := kv
    by_cases hk : k0 = k
    · simp only [lookupKey, if_pos hk] at h
      cases h
    · simp only [lookupKey, if_neg hk] at h
      simp only [List.cons_append, lookupKey, if_neg hk]
      exact ih h

/-- Setting an absent key appends the new entry at the end. -/
theorem setKey_append_of_none (d : Doc) (k : String) (v : Value)
    (h : lookupKey d k = none) : setKey d k v = d ++ [(k, v)] := by
  induction d with
  | nil => rfl
  | cons kv rest ih =>
    obtain ⟨k0, v0⟩ := kv
    by_cases hk : k0 = k
    · simp only [lookupKey, if_pos hk] at h
      cases h
    · simp only [lookupKey, if_neg hk] at h
      simp only [setKey, if_neg hk, List.cons_append]
      exact congrArg _ (ih h)

/-- A key is absent exactly when it is not among the entry keys. -/
theorem lookupKey_eq_none_iff (d : Doc) (k : String) :
    lookupKey d k = none ↔ k ∉ d.map Prod.fst := by
  induction d with
  | nil => simp [lookupKey]
  | cons kv rest ih =>
    obtain ⟨k0, v0⟩ := kv
    by_cases hk : k0 = k
    · subst hk
      simp [lookupKey]
    · have hk' : ¬ k = k0 := fun h => hk h.symm
      simp only [lookupKey, if_neg hk, ih, List.map_cons, List.mem_cons]
      simp [hk']

/-- Absence of a key transfers along equality of the key lists. -/
theorem lookupKey_none_of_keys (d d' : Doc) (k : String)
    (hk : d'.map Prod.fst = d.map Prod.fst) (h : lookupKey d k = none) :
    lookupKey d' k = none := by
  rw [lookupKey_eq_none_iff] at h ⊢
  rw [hk]
  exact h

/-- A `cleanDoc` document has no `_id` key. -/
theorem cleanDoc_no_id (d : Doc) (h : cleanDoc d = true) :
    lookupKey d "_id" = none := by
  induction d with
  | nil => rfl
  | cons kv rest ih =>
    obtain ⟨k0, v0⟩ := kv
    have h' : ((k0 != "_id") && cleanVal v0 && cleanDoc rest) = true := h
    simp only [Bool.and_eq_true, bne_iff_ne] at h'
    simp only [lookupKey, if_neg h'.1.1]
    exact ih h'.2

/-- A path that resolves in a document still resolves after entries are
appended at the top level. -/
theorem lookupPath_append (d t : Doc) (p : List String) (v : Value)
    (h : lookupPath d p = some v) : lookupPath (d ++ t) p = some v := by
  match p with
  | [] => cases h
  | [k] => exact lookupKey_append_left d t k v h
  | k :: k2 :: rest =>
    have h' : (match lookupKey d k with
      | some (.dict dd) => lookupPath dd (k2 :: rest)
      | _ => none) = some v := h
    cases hl : lookupKey d k with
    | none => rw [hl] at h'; cases h'
    | some w =>
      rw [hl] at h'
      have hgoal : lookupPath (d ++ t) (k :: k2 :: rest) =
          (match lookupKey (d ++ t) k with
            | some (.dict dd) => lookupPath dd (k2 :: rest)
            | _ => none) := rfl
      rw [hgoal, lookupKey_append_left d t k w hl]
      cases w <;> dsimp only at h' ⊢ <;> first
        | exact h'
        | cases h'

/-- The decode pass distributes over appending documents. -/
theorem loadNPArrays_append (fs : BlobStore) (l1 l2 r1 r2 : Doc)
    (h1 : loadNPArrays fs l1 = .ok r1) (h2 : loadNPArrays fs l2 = .ok r2) :
    loadNPArrays fs (l1 ++ l2) = .ok (r1 ++ r2) := by
  induction l1 generalizing r1 with
  | nil =>
    have h' : Except.ok ([] : Doc) = Except.ok r1 := h1
    cases h'
    simpa using h2
  | cons kv rest ih =>
    obtain ⟨k, v⟩ := kv
    have h1' : (match loadVal fs k v with
      | .error e => Except.error e
      | .ok v' =>
        match loadNPArrays fs rest with
        | .error e => Except.error e
        | .ok rest' => Except.ok ((k, v') :: rest')) = Except.ok r1 := h1
    cases hv : loadVal fs k v with
    | error e => rw [hv] at h1'; cases h1'
    | ok v' =>
      rw [hv] at h1'
      dsimp only at h1'
      cases hr : loadNPArrays fs rest with
      | error e => rw [hr] at h1'; cases h1'
      | ok rest' =>
        rw [hr] at h1'
        dsimp only at h1'
        cases h1'
        have hrec := ih rest' hr
        have hgoal : loadNPArrays fs ((k, v) :: (rest ++ l2)) =
            (match loadVal fs k v with
              | .error e => Except.error e
              | .ok v'' =>
                match loadNPArrays fs (rest ++ l2) with
                | .error e => Except.error e
                | .ok rest'' => Except.ok ((k, v'') :: rest'')) := rfl
        rw [List.cons_append, hgoal, hv, hrec]
        rfl

/-- Master lemma for the round trip: under the state invariant, the
encode pass over a clean document succeeds, preserves the invariant and
the key structure, only extends the blob store, and the decode pass over
its output (under any further extension of the blob store) reproduces the
original document exactly. -/
theorem stash_expand_aux :
    ∀ n, ∀ d : Doc, sizeOf d ≤ n → ∀ st, cleanDoc d = true → StInv st →
      ∃ d' st',
        stashNPArrays st d = .ok (d', st') ∧
        StInv st' ∧
        st.nextId ≤ st'.nextId ∧
        FsExt st.fs st'.fs ∧
        d'.map Prod.fst = d.map Prod.fst ∧
        (∀ fs2, FsExt st'.fs fs2 → loadNPArrays fs2 d' = .ok d) := by
  intro n
  induction n using Nat.strong_induction_on with
  | _ n ih =>
    intro d hle st hclean hinv
    match d with
    | [] =>
      exact ⟨[], st, rfl, hinv, le_rfl, fun i bs h => h, rfl,
        fun fs2 _ => rfl⟩
    | (k, v) :: rest =>
      have hszcons : sizeOf ((k, v) :: rest) =
          1 + (1 + sizeOf k + sizeOf v) + sizeOf rest := by simp
      have hrest : sizeOf rest ≤ n - 1 := by omega
      have hn : 1 ≤ n := by omega
      have hclean' : ((k != "_id") && cleanVal v && cleanDoc rest) = true := hclean
      simp only [Bool.and_eq_true, bne_iff_ne] at hclean'
      obtain ⟨⟨hkid, hvclean⟩, hrestclean⟩ := hclean'
      obtain ⟨hold, hkeys⟩ := hinv
      match v with
      | .npArray a =>
        have hsv : stashVal st (.npArray a) = .ok (.objId st.nextId,
            ⟨st.fs ++ [(st.nextId, npArray2Binary a)], st.nextId + 1, [],
              st.newRefs ++ [st.nextId], st.evs ++ [.putBlob st.nextId]⟩) := by
          unfold stashVal
          rw [hold]
          rfl
        have hinv1 : StInv ⟨st.fs ++ [(st.nextId, npArray2Binary a)], st.nextId + 1, [],
            st.newRefs ++ [st.nextId], st.evs ++ [.putBlob st.nextId]⟩ := by
          refine ⟨rfl, fun p hp => ?_⟩
          rcases List.mem_append.mp hp with hp | hp
          · have := hkeys p hp
            simp only
            omega
          · rcases List.mem_singleton.mp hp with rfl
            simp
        obtain ⟨rest', st2, hstr, hinv2, hnext2, hext2, hkeys2, hexp2⟩ :=
          ih (n - 1) (by omega) rest hrest _ hrestclean hinv1
        have hfetch1 : fetchBlob (st.fs ++ [(st.nextId, npArray2Binary a)]) st.nextId =
            some (npArray2Binary a) := fetchBlob_append_fresh st.fs st.nextId _ hkeys
        refine ⟨(k, .objId st.nextId) :: rest', st2, ?_, hinv2, by simp only at hnext2; omega,
          FsExt.trans (FsExt.push st.fs _) hext2, by simpa using hkeys2, ?_⟩
        · have hgoal : stashNPArrays st ((k, Value.npArray a) :: rest) =
              (match stashVal st (.npArray a) with
                | .error e => Except.error e
                | .ok (v', st1) =>
                  match stashNPArrays st1 rest with
                  | .error e => Except.error e
                  | .ok (rest', st2) => Except.ok ((k, v') :: rest', st2)) := rfl
          rw [hgoal, hsv]
          dsimp only
          rw [hstr]
        · intro fs2 hfs2
          have hfetch2 : fetchBlob fs2 st.nextId = some (npArray2Binary a) :=
            hfs2 _ _ (hext2 _ _ hfetch1)
          have hgoal : loadNPArrays fs2 ((k, Value.objId st.nextId) :: rest') =
              (match loadVal fs2 k (.objId st.nextId) with
                | .error e => Except.error e
                | .ok v' =>
                  match loadNPArrays fs2 rest' with
                  | .error e => Except.error e
                  | .ok rest'' => Except.ok ((k, v') :: rest'')) := rfl
          have hlv : loadVal fs2 k (.objId st.nextId) = .ok (.npArray a) := by
            unfold loadVal
            rw [if_neg hkid, hfetch2]
            dsimp only
            rw [binary2npArray_npArray2Binary]
          rw [hgoal, hlv, hexp2 fs2 hfs2]
      | .dict dd =>
        have hdd : sizeOf dd ≤ n - 1 := by
          have hsz : sizeOf ((k, Value.dict dd) :: rest) =
              1 + (1 + sizeOf k + (1 + sizeOf dd)) + sizeOf rest := by simp
          omega
        obtain ⟨dd', st1, hstd, hinv1, hnext1, hext1, hkeys1, hexp1⟩ :=
          ih (n - 1) (by omega) dd hdd st hvclean ⟨hold, hkeys⟩
        obtain ⟨rest', st2, hstr, hinv2, hnext2, hext2, hkeys2, hexp2⟩ :=
          ih (n - 1) (by omega) rest hrest st1 hrestclean hinv1
        refine ⟨(k, .dict dd') :: rest', st2, ?_, hinv2, le_trans hnext1 hnext2,
          FsExt.trans hext1 hext2, by simpa using hkeys2, ?_⟩
        · have hgoal : stashNPArrays st ((k, Value.dict dd) :: rest) =
              (match stashVal st (.dict dd) with
                | .error e => Except.error e
                | .ok (v', st1) =>
                  match stashNPArrays st1 rest with
                  | .error e => Except.error e
                  | .ok (rest', st2) => Except.ok ((k, v') :: rest', st2)) := rfl
          have hsv : stashVal st (.dict dd) = .ok (.dict dd', st1) := by
            have h' : stashVal st (.dict dd) =
                (match stashNPArrays st dd with
                  | .error e => Except.error e
                  | .ok (dd', st1) => Except.ok (Value.dict dd', st1)) := rfl
            rw [h', hstd]
          rw [hgoal, hsv]
          dsimp only
          rw [hstr]
        · intro fs2 hfs2
          have hgoal : loadNPArrays fs2 ((k, Value.dict dd') :: rest') =
              (match loadVal fs2 k (.dict dd') with
                | .error e => Except.error e
                | .ok v' =>
                  match loadNPArrays fs2 rest' with
                  | .error e => Except.error e
                  | .ok rest'' => Except.ok ((k, v') :: rest'')) := rfl
          have hlv : loadVal fs2 k (.dict dd') = .ok (.dict dd) := by
            have h' : loadVal fs2 k (.dict dd') =
                (match loadNPArrays fs2 dd' with
                  | .error e => Except.error e
                  | .ok dd'' => Except.ok (Value.dict dd'')) := rfl
            rw [h', hexp1 fs2 (FsExt.trans hext2 hfs2)]
          rw [hgoal, hlv, hexp2 fs2 hfs2]
      | .objId i0 => cases hvclean
      | .npInt m => cases hvclean
      | .int m =>
        obtain ⟨rest', st2, hstr, hinv2, hnext2, hext2, hkeys2, hexp2⟩ :=
          ih (n - 1) (by omega) rest hrest st hrestclean ⟨hold, hkeys⟩
        refine ⟨(k, .int m) :: rest', st2, ?_, hinv2, hnext2, hext2,
          by simpa using hkeys2, ?_⟩
        · have hgoal : stashNPArrays st ((k, Value.int m) :: rest) =
              (match stashNPArrays st rest with
                | .error e => Except.error e
                | .ok (rest', st2) => Except.ok ((k, Value.int m) :: rest', st2)) := rfl
          rw [hgoal, hstr]
        · intro fs2 hfs2
          have hgoal : loadNPArrays fs2 ((k, Value.int m) :: rest') =
              (match loadNPArrays fs2 rest' with
                | .error e => Except.error e
                | .ok rest'' => Except.ok ((k, Value.int m) :: rest'')) := rfl
          rw [hgoal, hexp2 fs2 hfs2]
      | .str s0 =>
        obtain ⟨rest', st2, hstr, hinv2, hnext2, hext2, hkeys2, hexp2⟩ :=
          ih (n - 1) (by omega) rest hrest st hrestclean ⟨hold, hkeys⟩
        refine ⟨(k, .str s0) :: rest', st2, ?_, hinv2, hnext2, hext2,
          by simpa using hkeys2, ?_⟩
        · have hgoal : stashNPArrays st ((k, Value.str s0) :: rest) =
              (match stashNPArrays st rest with
                | .error e => Except.error e
                | .ok (rest', st2) => Except.ok ((k, Value.str s0) :: rest', st2)) := rfl
          rw [hgoal, hstr]
        · intro fs2 hfs2
          have hgoal : loadNPArrays fs2 ((k, Value.str s0) :: rest') =
              (match loadNPArrays fs2 rest' with
                | .error e => Except.error e
                | .ok rest'' => Except.ok ((k, Value.str s0) :: rest'')) := rfl
          rw [hgoal, hexp2 fs2 hfs2]
      | .bool b0 =>
        obtain ⟨rest', st2, hstr, hinv2, hnext2, hext2, hkeys2, hexp2⟩ :=
          ih (n - 1) (by omega) rest hrest st hrestclean ⟨hold, hkeys⟩
        refine ⟨(k, .bool b0) :: rest', st2, ?_, hinv2, hnext2, hext2,
          by simpa using hkeys2, ?_⟩
        · have hgoal : stashNPArrays st ((k, Value.bool b0) :: rest) =
              (match stashNPArrays st rest with
                | .error e => Except.error e
                | .ok (rest', st2) => Except.ok ((k, Value.bool b0) :: rest', st2)) := rfl
          rw [hgoal, hstr]
        · intro fs2 hfs2
          have hgoal : loadNPArrays fs2 ((k, Value.bool b0) :: rest') =
              (match loadNPArrays fs2 rest' with
                | .error e => Except.error e
                | .ok rest'' => Except.ok ((k, Value.bool b0) :: rest'')) := rfl
          rw [hgoal, hexp2 fs2 hfs2]
      | .timestamp t0 =>
        obtain ⟨rest', st2, hstr, hinv2, hnext2, hext2, hkeys2, hexp2⟩ :=
          ih (n - 1) (by omega) rest hrest st hrestclean ⟨hold, hkeys⟩
        refine ⟨(k, .timestamp t0) :: rest', st2, ?_, hinv2, hnext2, hext2,
          by simpa using hkeys2, ?_⟩
        · have hgoal : stashNPArrays st ((k, Value.timestamp t0) :: rest) =
              (match stashNPArrays st rest with
                | .error e => Except.error e
                | .ok (rest', st2) => Except.ok ((k, Value.timestamp t0) :: rest', st2)) := rfl
          rw [hgoal, hstr]
        · intro fs2 hfs2
          have hgoal : loadNPArrays fs2 ((k, Value.timestamp t0) :: rest') =
              (match loadNPArrays fs2 rest' with
                | .error e => Except.error e
                | .ok rest'' => Except.ok ((k, Value.timestamp t0) :: rest'')) := rfl
          rw [hgoal, hexp2 fs2 hfs2]
      | .binaryV bs0 =>
        obtain ⟨rest', st2, hstr, hinv2, hnext2, hext2, hkeys2, hexp2⟩ :=
          ih (n - 1) (by omega) rest hrest st hrestclean ⟨hold, hkeys⟩
        refine ⟨(k, .binaryV bs0) :: rest', st2, ?_, hinv2, hnext2, hext2,
          by simpa using hkeys2, ?_⟩
        · have hgoal : stashNPArrays st ((k, Value.binaryV bs0) :: rest) =
              (match stashNPArrays st rest with
                | .error e => Except.error e
                | .ok (rest', st2) => Except.ok ((k, Value.binaryV bs0) :: rest', st2)) := rfl
          rw [hgoal, hstr]
        · intro fs2 hfs2
          have hgoal : loadNPArrays fs2 ((k, Value.binaryV bs0) :: rest') =
              (match loadNPArrays fs2 rest' with
                | .error e => Except.error e
                | .ok rest'' => Except.ok ((k, Value.binaryV bs0) :: rest'')) := rfl
          rw [hgoal, hexp2 fs2 hfs2]
      | .list vs0 =>
        obtain ⟨rest', st2, hstr, hinv2, hnext2, hext2, hkeys2, hexp2⟩ :=
          ih (n - 1) (by omega) rest hrest st hrestclean ⟨hold, hkeys⟩
        refine ⟨(k, .list vs0) :: rest', st2, ?_, hinv2, hnext2, hext2,
          by simpa using hkeys2, ?_⟩
        · have hgoal : stashNPArrays st ((k, Value.list vs0) :: rest) =
              (match stashNPArrays st rest with
                | .error e => Except.error e
                | .ok (rest', st2) => Except.ok ((k, Value.list vs0) :: rest', st2)) := rfl
          rw [hgoal, hstr]
        · intro fs2 hfs2
          have hgoal : loadNPArrays fs2 ((k, Value.list vs0) :: rest') =
              (match loadNPArrays fs2 rest' with
                | .error e => Except.error e
                | .ok rest'' => Except.ok ((k, Value.list vs0) :: rest'')) := rfl
          rw [hgoal, hexp2 fs2 hfs2]

/-- C7: round trip — saving a clean fresh document (no reserved keys, no
raw ObjectId or numpy-scalar values) and loading it back by its assigned
identity with expansion reconstructs every array field, at any dictionary
path, exactly equal to the original: same shape, same element type code,
same data. -/
theorem round_trip (d : Doc) (a : NpArray) (p : List String)
    (hc : cleanDoc d = true)
    (hrefs : lookupKey d "_npObjectIDs" = none)
    (hins : lookupKey d "insertion_date" = none)
    (hp : lookupPath d p = some (.npArray a)) :
    ∃ r e, saveOne emptyDB d = .ok r ∧
      load r.db [("_id", .objId r.id)] true = .ok (.one e) ∧
      lookupPath e p = some (.npArray a) := by
  obtain ⟨d', st', hstash, hinv', hnext, hext, hkeys, hexp⟩ :=
    stash_expand_aux (sizeOf d) d le_rfl ⟨[], 0, [], [], []⟩ hc ⟨rfl, by simp⟩
  have hid : lookupKey d "_id" = none := cleanDoc_no_id d hc
  have hrefs' : lookupKey d' "_npObjectIDs" = none :=
    lookupKey_none_of_keys d d' _ hkeys hrefs
  have hins' : lookupKey d' "insertion_date" = none :=
    lookupKey_none_of_keys d d' _ hkeys hins
  have hid' : lookupKey d' "_id" = none :=
    lookupKey_none_of_keys d d' _ hkeys hid
  have hc2 : setKey d' "_npObjectIDs" (Value.list (st'.newRefs.map Value.objId)) =
      d' ++ [("_npObjectIDs", Value.list (st'.newRefs.map Value.objId))] :=
    setKey_append_of_none _ _ _ hrefs'
  have hc2ins : lookupKey
      (d' ++ [("_npObjectIDs", Value.list (st'.newRefs.map Value.objId))])
      "insertion_date" = none := by
    rw [lookupKey_append_right _ _ _ hins']
    rfl
  have hc3 : setKey (d' ++ [("_npObjectIDs", Value.list (st'.newRefs.map Value.objId))])
      "insertion_date" (Value.timestamp 0) =
      d' ++ [("_npObjectIDs", Value.list (st'.newRefs.map Value.objId)),
             ("insertion_date", .timestamp 0)] := by
    rw [setKey_append_of_none _ _ _ hc2ins, List.append_assoc]
    rfl
  have hc3id : lookupKey
      (d' ++ [("_npObjectIDs", Value.list (st'.newRefs.map Value.objId)),
              ("insertion_date", .timestamp 0)]) "_id" = none := by
    rw [lookupKey_append_right _ _ _ hid']
    rfl
  have hstored_eq : setKey
      (d' ++ [("_npObjectIDs", Value.list (st'.newRefs.map Value.objId)),
              ("insertion_date", .timestamp 0)]) "_id" (.objId st'.nextId) =
      d' ++ [("_npObjectIDs", Value.list (st'.newRefs.map Value.objId)),
             ("insertion_date", .timestamp 0), ("_id", .objId st'.nextId)] := by
    rw [setKey_append_of_none _ _ _ hc3id, List.append_assoc]
    rfl
  have hcoll : collSave ([] : Collection) st'.nextId
      (d' ++ [("_npObjectIDs", Value.list (st'.newRefs.map Value.objId)),
              ("insertion_date", .timestamp 0)]) =
      .ok (st'.nextId,
        [(st'.nextId,
          d' ++ [("_npObjectIDs", Value.list (st'.newRefs.map Value.objId)),
                 ("insertion_date", .timestamp 0), ("_id", .objId st'.nextId)])],
        st'.nextId + 1) := by
    unfold collSave
    rw [hc3id]
    dsimp only
    rw [hstored_eq]
    rfl
  have hgetold : getOldRefs d = .ok [] := by
    unfold getOldRefs
    rw [hrefs]
  have hsave : saveOne emptyDB d = .ok ⟨⟨st'.fs,
      [(st'.nextId,
        d' ++ [("_npObjectIDs", Value.list (st'.newRefs.map Value.objId)),
               ("insertion_date", .timestamp 0), ("_id", .objId st'.nextId)])],
      st'.nextId + 1, 2⟩,
      st'.nextId,
      setKey (setKey (setKey d "_npObjectIDs" (Value.list (st'.newRefs.map Value.objId)))
        "insertion_date" (.timestamp 1)) "_id" (.objId st'.nextId),
      st'.evs ++ [.upsert st'.nextId]⟩ := by
    unfold saveOne
    dsimp only [emptyDB]
    rw [hgetold]
    dsimp only
    rw [hstash]
    dsimp only
    rw [hc2, hc3, hcoll]
    dsimp only
    rw [hinv'.1]
    simp
  have hone : lookupKey
      (d' ++ [("_npObjectIDs", Value.list (st'.newRefs.map Value.objId)),
              ("insertion_date", .timestamp 0), ("_id", .objId st'.nextId)]) "_id" =
      some (.objId st'.nextId) := by
    rw [lookupKey_append_right _ _ _ hid']
    rfl
  have hm : docMatches
      (d' ++ [("_npObjectIDs", Value.list (st'.newRefs.map Value.objId)),
              ("insertion_date", .timestamp 0), ("_id", .objId st'.nextId)])
      [("_id", .objId st'.nextId)] = true := by
    unfold docMatches
    rw [List.all_cons]
    dsimp only
    rw [hone]
    simp [valueBeq]
  have hfind : collFind
      [(st'.nextId,
        d' ++ [("_npObjectIDs", Value.list (st'.newRefs.map Value.objId)),
               ("insertion_date", .timestamp 0), ("_id", .objId st'.nextId)])]
      [("_id", .objId st'.nextId)] =
      [d' ++ [("_npObjectIDs", Value.list (st'.newRefs.map Value.objId)),
              ("insertion_date", .timestamp 0), ("_id", .objId st'.nextId)]] := by
    unfold collFind
    simp [hm]
  have hexpstored : loadNPArrays st'.fs
      (d' ++ [("_npObjectIDs", Value.list (st'.newRefs.map Value.objId)),
              ("insertion_date", .timestamp 0), ("_id", .objId st'.nextId)]) =
      .ok (d ++ [("_npObjectIDs", Value.list (st'.newRefs.map Value.objId)),
                 ("insertion_date", .timestamp 0), ("_id", .objId st'.nextId)]) :=
    loadNPArrays_append st'.fs d' _ d _ (hexp st'.fs (fun _ _ h => h)) rfl
  have hload : load ⟨st'.fs,
      [(st'.nextId,
        d' ++ [("_npObjectIDs", Value.list (st'.newRefs.map Value.objId)),
               ("insertion_date", .timestamp 0), ("_id", .objId st'.nextId)])],
      st'.nextId + 1, 2⟩ [("_id", .objId st'.nextId)] true =
      .ok (.one (d ++ [("_npObjectIDs", Value.list (st'.newRefs.map Value.objId)),
                       ("insertion_date", .timestamp 0),
                       ("_id", .objId st'.nextId)])) := by
    unfold load
    dsimp only
    rw [hfind]
    have hexpAll : expandAll st'.fs
        [d' ++ [("_npObjectIDs", Value.list (st'.newRefs.map Value.objId)),
                ("insertion_date", .timestamp 0), ("_id", .objId st'.nextId)]] =
        .ok [d ++ [("_npObjectIDs", Value.list (st'.newRefs.map Value.objId)),
                   ("insertion_date", .timestamp 0), ("_id", .objId st'.nextId)]] := by
      unfold expandAll
      rw [hexpstored]
      rfl
    rw [hexpAll]
    rfl
  exact ⟨_, _, hsave, hload,
    lookupPath_append d _ p _ hp⟩

/-- Witness for `round_trip` at `d7` and path `["data"]`. -/
theorem round_trip_witness :
    cleanDoc d7 = true ∧ lookupKey d7 "_npObjectIDs" = none ∧
    lookupKey d7 "insertion_date" = none ∧
    lookupPath d7 ["data"] = some (.npArray arrA) ∧
    (∃ r e, saveOne emptyDB d7 = .ok r ∧
      load r.db [("_id", .objId r.id)] true = .ok (.one e) ∧
      lookupPath e ["data"] = some (.npArray arrA)) :=
  ⟨rfl, rfl, rfl, rfl, round_trip d7 arrA ["data"] rfl rfl rfl rfl⟩

end MongoWrapper
